import Mathlib

/-!
Verification of the HYW personalized-recommendation scoring engine.

Shallow embedding of the TypeScript source in `src/lib/feed.ts`
(`calculateSimilarity`, `getRecencyMultiplier`, `applyDeckModeMultiplier`,
`computeRecommendStats`, `getPersonalizedRecommendations`) and of the
fallback composition part of `getHomePicks` (`src/lib/homePicks.ts`).

Modelling conventions:
* JavaScript numbers are modelled by `ℚ` (the computations involved are
  exact decimal arithmetic on small rationals).
* A JavaScript `Map` is modelled by an association list with
  first-match lookup; `new Map(entries)` keeps the first position of a
  key and the last value written for it (`buildMap`).
* A rating's `created_at` timestamp is abstracted to `created_days`,
  the floored whole-day age of the rating at the time of the call,
  which is the only quantity `getRecencyMultiplier` derives from it.
* `Array.prototype.sort` with a numeric comparator is stable; it is
  modelled by a stable insertion sort on the comparator's key.
* `Math.round` (round half toward +∞) is `jsRound`; `toFixed(2)` is
  modelled by `toFixed2` (half-up rounding to two decimals).
-/

namespace HYW

/-- JS `Math.round`: round half toward positive infinity. -/
def jsRound (q : ℚ) : ℤ := ⌊q + 1/2⌋

/-- Association-list model of a JS `Map`'s `get`: the value stored at `k`. -/
def mapLookup {β : Type} (m : List (String × β)) (k : String) : Option β :=
  (m.find? (fun p => p.1 = k)).map (fun p => p.2)

/-- Association-list model of a JS `Map`'s `has`. -/
def mapHas {β : Type} (m : List (String × β)) (k : String) : Bool :=
  m.any (fun p => p.1 = k)

/-- One insertion into the association-list model of a JS `Map`
(`set`): an existing key keeps its position and takes the new value,
a new key is appended. -/
def jsMapInsert {β : Type} (m : List (String × β)) (k : String) (v : β) :
    List (String × β) :=
  if m.any (fun p => p.1 = k) then
    m.map (fun p => if p.1 = k then (k, v) else p)
  else
    m ++ [(k, v)]

/-- `new Map(entries)`: insert the entries in order. -/
def buildMap {β : Type} (l : List (String × β)) : List (String × β) :=
  l.foldl (fun m p => jsMapInsert m p.1 p.2) []

/-- The two deck modes of the app (`type DeckMode = 'tonight' | 'this_weekend'`). -/
inductive DeckMode where
  | tonight
  | this_weekend
deriving DecidableEq, Repr

/-- Similarity of two users from their show → enjoyment maps
(`calculateSimilarity` in `feed.ts`).  Fewer than 3 shared shows gives
the fixed default 0.3; otherwise `1 - meanAbsDiff / 10` clamped to
`[0, 1]`. -/
def calculateSimilarity (userRatings otherRatings : List (String × ℚ)) : ℚ :=
  let sharedShows :=
    (userRatings.map Prod.fst).filter (fun showId => mapHas otherRatings showId)
  if sharedShows.length < 3 then
    3/10
  else
    let totalDiff := sharedShows.foldl
      (fun acc showId =>
        let userEnjoyment := (mapLookup userRatings showId).getD 0
        let otherEnjoyment := (mapLookup otherRatings showId).getD 0
        acc + |userEnjoyment - otherEnjoyment|) 0
    let avgDiff := totalDiff / sharedShows.length
    let similarity := 1 - avgDiff / 10
    max 0 (min 1 similarity)

/-- Recency multiplier (`getRecencyMultiplier` in `feed.ts`), as a
function of the floored whole-day age `daysDiff` of the rating and the
deck mode. -/
def getRecencyMultiplier (daysDiff : ℤ) (mode : DeckMode) : ℚ :=
  match mode with
  | .tonight =>
      if daysDiff < 30 then 13/10
      else if daysDiff ≤ 180 then 1
      else 8/10
  | .this_weekend =>
      if daysDiff < 30 then 11/10
      else if daysDiff ≤ 180 then 1
      else 8/10

/-- A row passed to `computeRecommendStats`: a record with a tri-state
`recommend` flag (`true` / `false` / absent). -/
structure RecRow where
  recommend : Option Bool
deriving DecidableEq, Repr

/-- The result record of `computeRecommendStats`. -/
structure RecommendStats where
  total : ℕ
  positive : ℕ
  percent : Option ℤ
deriving DecidableEq, Repr

/-- Recommend-rate statistics (`computeRecommendStats` in `feed.ts`). -/
def computeRecommendStats (ratings : List RecRow) : RecommendStats :=
  let validRatings := ratings.filter (fun r => r.recommend.isSome)
  let total := validRatings.length
  let positive := (validRatings.filter (fun r => r.recommend = some true)).length
  let percent : Option ℤ :=
    if total > 0 then some (jsRound ((positive : ℚ) / (total : ℚ) * 100)) else none
  ⟨total, positive, percent⟩

/-- A rating row as fetched from the `ratings` table.  `created_days`
abstracts the `created_at` timestamp to the rating's floored whole-day
age at call time. -/
structure Rating where
  user_id : String
  show_id : String
  enjoyment : ℚ
  hook : Option ℚ := none
  consistency : Option ℚ := none
  payoff : Option ℚ := none
  heat : Option ℚ := none
  tags : Option (List String) := none
  created_days : ℤ := 0
deriving DecidableEq, Repr

/-- A profile row: user identifier and username. -/
structure Profile where
  id : String
  username : String
deriving DecidableEq, Repr

/-- A follow edge (follower, followee). -/
structure Follow where
  follower_id : String
  followee_id : String
deriving DecidableEq, Repr

/-- A catalog `shows` row. -/
structure Show where
  id : String
  title : String
  poster_path : Option String := none
deriving DecidableEq, Repr

/-- An output record of `getPersonalizedRecommendations`. -/
structure ShowRecommendation where
  show_id : String
  title : String
  poster_path : Option String
  score : ℚ
  explanation : String
  tags : List String
deriving DecidableEq, Repr

/-- An entry of the `showRatings` map inside
`getPersonalizedRecommendations`: one contributing rating enriched with
the rater's similarity and follow status. -/
structure Contribution where
  user_id : String
  enjoyment : ℚ
  hook : Option ℚ := none
  consistency : Option ℚ := none
  payoff : Option ℚ := none
  heat : Option ℚ := none
  tags : Option (List String) := none
  created_days : ℤ := 0
  similarity : ℚ
  isFollowed : Bool
deriving DecidableEq, Repr

/-- One element of the `contributors` array of the score aggregator. -/
structure Contributor where
  user_id : String
  username : String
  weight : ℚ
  similarity : ℚ
  isFollowed : Bool
deriving DecidableEq, Repr

/-- JS truthiness-guarded threshold test `x && x >= 7` on an optional
numeric sub-score: an absent value and the (falsy) value 0 both fail. -/
def truthyAndGe7 (x : Option ℚ) : Bool :=
  match x with
  | some v => decide (v ≠ 0) && decide (7 ≤ v)
  | none => false

/-- Deck-mode content multiplier (`applyDeckModeMultiplier` in
`feed.ts`), successively accumulated exactly as in the source. -/
def applyDeckModeMultiplier (score : ℚ) (mode : DeckMode) (rating : Rating)
    (showTags : Option (List String)) : ℚ :=
  match mode with
  | .tonight =>
      let multiplier : ℚ := 1
      let multiplier := if truthyAndGe7 rating.hook then multiplier + 1/10 else multiplier
      let multiplier := if 7 ≤ rating.enjoyment then multiplier + 1/10 else multiplier
      let multiplier :=
        if (showTags.getD []).contains "easy watch" then multiplier + 15/100 else multiplier
      score * multiplier
  | .this_weekend =>
      let multiplier : ℚ := 1
      let multiplier := if truthyAndGe7 rating.payoff then multiplier + 1/10 else multiplier
      let multiplier := if truthyAndGe7 rating.consistency then multiplier + 1/10 else multiplier
      score * multiplier

/-- One `set`/`push` step of grouping values under a string key in a JS
`Map` of arrays: an existing key appends to its array in place, a fresh
key is appended with a singleton array. -/
def insertGroup {β : Type} (acc : List (String × List β)) (k : String) (v : β) :
    List (String × List β) :=
  if acc.any (fun p => p.1 = k) then
    acc.map (fun p => if p.1 = k then (p.1, p.2 ++ [v]) else p)
  else
    acc ++ [(k, [v])]

/-- Grouping a list under a string key, in iteration order, as the JS
`forEach` + `Map` pattern does in `getPersonalizedRecommendations`. -/
def groupFold {α β : Type} (key : α → String) (val : α → β) (l : List α) :
    List (String × List β) :=
  l.foldl (fun acc x => insertGroup acc (key x) (val x)) []

/-- Stable insertion of `x` into a list ordered by nonincreasing key:
`x` goes in front of the first element with a strictly smaller key. -/
def insertDescBy {α : Type} (key : α → ℚ) (x : α) : List α → List α
  | [] => [x]
  | y :: ys => if key y < key x then x :: y :: ys else y :: insertDescBy key x ys

/-- Stable descending sort by a rational key, modelling the stable JS
`Array.prototype.sort` with comparator `(a, b) => key b - key a`. -/
def sortDescBy {α : Type} (key : α → ℚ) (l : List α) : List α :=
  l.foldl (fun acc x => insertDescBy key x acc) []

/-- Decimal rendering of a similarity, modelling `toFixed(2)` with
half-up rounding. -/
def toFixed2 (q : ℚ) : String :=
  let n : ℤ := ⌊q * 100 + 1/2⌋
  let whole := n / 100
  let frac := (n % 100).toNat
  toString whole ++ "." ++ (if frac < 10 then "0" else "") ++ toString frac

/-- One iteration of the per-rating accumulation loop of the score
aggregator: weights the contributing rating by
`(similarity * 0.7 + followBonus) * recencyMultiplier` and accumulates
`weightedSum`, `totalWeight` and the `contributors` array. -/
def aggStep (mode : DeckMode) (profilesMap : List (String × Profile))
    (acc : ℚ × ℚ × List Contributor) (rating : Contribution) :
    ℚ × ℚ × List Contributor :=
  let recencyMultiplier := getRecencyMultiplier rating.created_days mode
  let baseWeight := rating.similarity * (7/10)
  let followBonus : ℚ := if rating.isFollowed then 3/10 else 0
  let weight := (baseWeight + followBonus) * recencyMultiplier
  let contributors :=
    match mapLookup profilesMap rating.user_id with
    | some profile =>
        acc.2.2 ++
          [⟨rating.user_id, profile.username, weight, rating.similarity, rating.isFollowed⟩]
    | none => acc.2.2
  (acc.1 + rating.enjoyment * weight, acc.2.1 + weight, contributors)

/-- The per-rating accumulation loop of the score aggregator
(`ratings.forEach` in `getPersonalizedRecommendations`), returning
`(weightedSum, totalWeight, contributors)`. -/
def aggregateRatings (mode : DeckMode) (profilesMap : List (String × Profile))
    (ratings : List Contribution) : ℚ × ℚ × List Contributor :=
  ratings.foldl (aggStep mode profilesMap) (0, 0, [])

/-- Average of an optional sub-score over the contributors of one show,
treating an absent value as 0 (`reduce((sum, r) => sum + (r.f || 0), 0) / length`). -/
def avgField (g : List Contribution) (f : Contribution → Option ℚ) : ℚ :=
  (g.foldl (fun sum r => sum + (f r).getD 0) 0) / (g.length : ℚ)

/-- Tag list attached to a scored show: the first contributor's
nonempty tag list, else empty
(`ratings.find((r) => r.tags && r.tags.length > 0)?.tags || []`). -/
def groupTags (g : List Contribution) : List String :=
  ((g.find? (fun r =>
      match r.tags with
      | some l => decide (l ≠ [])
      | none => false)).bind (fun r => r.tags)).getD []

/-- The synthetic `avgRating` record built from the contributors of one
show before applying the deck-mode multiplier. -/
def avgRatingOfGroup (showId : String) (baseScore : ℚ) (g : List Contribution) : Rating :=
  { user_id := ""
    show_id := showId
    enjoyment := baseScore
    hook := some (avgField g (fun r => r.hook))
    consistency := some (avgField g (fun r => r.consistency))
    payoff := some (avgField g (fun r => r.payoff))
    heat := some (avgField g (fun r => r.heat))
    tags := some (groupTags g)
    created_days := (g.head?.map (fun r => r.created_days)).getD 0 }

/-- Scoring of a single candidate show from its contributing ratings:
the body of the `showRatings.forEach` in `getPersonalizedRecommendations`.
Returns `none` when the show is skipped (fewer than 2 raters, zero
total weight, or show missing from the catalog map). -/
def scoreShow (mode : DeckMode) (profilesMap : List (String × Profile))
    (showsMap : List (String × Show)) (showId : String)
    (ratings : List Contribution) : Option ShowRecommendation :=
  if ratings.length < 2 then none
  else
    let agg := aggregateRatings mode profilesMap ratings
    let weightedSum := agg.1
    let totalWeight := agg.2.1
    let contributors := agg.2.2
    if totalWeight = 0 then none
    else
      let baseScore := weightedSum / totalWeight
      let avgRating := avgRatingOfGroup showId baseScore ratings
      let finalScore := applyDeckModeMultiplier baseScore mode avgRating avgRating.tags
      let clampedScore := max 0 (min 10 finalScore)
      let topContributors := (sortDescBy (fun c => c.weight) contributors).take 2
      let explanation :=
        if topContributors.length > 0 then
          String.intercalate " • "
            (topContributors.map (fun c =>
              if c.isFollowed then
                "You follow @" ++ c.username ++ " • align " ++ toFixed2 c.similarity
              else
                "@" ++ c.username ++ " • align " ++ toFixed2 c.similarity))
        else
          "Based on similar users"
      match mapLookup showsMap showId with
      | some shw =>
          some
            { show_id := showId
              title := shw.title
              poster_path := shw.poster_path
              score := clampedScore
              explanation := explanation
              tags := (avgRatingOfGroup showId baseScore ratings).tags.getD [] }
      | none => none

/-- The request-scoped snapshot of the tables `getPersonalizedRecommendations`
fetches before computing (ratings, profiles, follows, shows). -/
structure FeedInput where
  allRatings : List Rating
  profiles : List Profile
  follows : List Follow
  shows : List Show
deriving Repr

/-- Followee set of the requesting user (`followedSet`). -/
def followedSetOf (inp : FeedInput) (userId : String) : List String :=
  (inp.follows.filter (fun f => f.follower_id = userId)).map (fun f => f.followee_id)

/-- Catalog lookup map (`showsMap`). -/
def showsMapOf (inp : FeedInput) : List (String × Show) :=
  buildMap (inp.shows.map (fun s => (s.id, s)))

/-- Profile lookup map (`profilesMap`). -/
def profilesMapOf (inp : FeedInput) : List (String × Profile) :=
  buildMap (inp.profiles.map (fun p => (p.id, p)))

/-- The requesting user's own rating rows (`userRatings`). -/
def userRatingsOf (inp : FeedInput) (userId : String) : List Rating :=
  inp.allRatings.filter (fun r => r.user_id = userId)

/-- The requesting user's show → enjoyment map (`userRatingsMap`). -/
def userRatingsMapOf (inp : FeedInput) (userId : String) : List (String × ℚ) :=
  buildMap ((userRatingsOf inp userId).map (fun r => (r.show_id, r.enjoyment)))

/-- Per-other-user similarity map (`similarities`), computed from the
per-user grouping of all foreign ratings. -/
def similaritiesOf (inp : FeedInput) (userId : String) : List (String × ℚ) :=
  (groupFold (fun r => r.user_id) id
      (inp.allRatings.filter (fun r => ¬ r.user_id = userId))).map
    (fun g =>
      (g.1, calculateSimilarity (userRatingsMapOf inp userId)
        (buildMap (g.2.map (fun r => (r.show_id, r.enjoyment))))))

/-- Rating rows that survive the candidate filters: foreign rater, show
not rated by the requesting user, show not excluded, nonzero similarity. -/
def contributingOf (inp : FeedInput) (userId : String) (excludeShowIds : List String) :
    List Rating :=
  inp.allRatings.filter (fun r =>
    ¬ r.user_id = userId ∧
    r.show_id ∉ (userRatingsOf inp userId).map (fun u => u.show_id) ∧
    r.show_id ∉ excludeShowIds ∧
    ¬ (mapLookup (similaritiesOf inp userId) r.user_id).getD 0 = 0)

/-- Enrichment of one surviving rating row into a `Contribution`. -/
def mkContribution (inp : FeedInput) (userId : String) (r : Rating) : Contribution :=
  { user_id := r.user_id
    enjoyment := r.enjoyment
    hook := r.hook
    consistency := r.consistency
    payoff := r.payoff
    heat := r.heat
    tags := r.tags
    created_days := r.created_days
    similarity := (mapLookup (similaritiesOf inp userId) r.user_id).getD 0
    isFollowed := (followedSetOf inp userId).contains r.user_id }

/-- The `showRatings` map: surviving ratings grouped by show. -/
def showRatingsOf (inp : FeedInput) (userId : String) (excludeShowIds : List String) :
    List (String × List Contribution) :=
  groupFold (fun r => r.show_id) (mkContribution inp userId)
    (contributingOf inp userId excludeShowIds)

/-- Iteration that conditionally pushes a produced value onto a result
array (the `forEach` + early-`return` + `push` pattern). -/
def pushSomeFold {α β : Type} (f : α → Option β) (l : List α) : List β :=
  l.foldl (fun recs x => match f x with | some b => recs ++ [b] | none => recs) []

/-- The unsorted recommendation list: every grouped show scored, skipped
shows dropped (`showRatings.forEach` pushing into `recommendations`). -/
def recommendationsOf (inp : FeedInput) (userId : String) (mode : DeckMode)
    (excludeShowIds : List String) : List ShowRecommendation :=
  pushSomeFold (fun g => scoreShow mode (profilesMapOf inp) (showsMapOf inp) g.1 g.2)
    (showRatingsOf inp userId excludeShowIds)

/-- The personalized recommendation pipeline
(`getPersonalizedRecommendations` in `feed.ts`), with the fetched table
snapshots passed in as `inp`. -/
def getPersonalizedRecommendations (inp : FeedInput) (userId : String)
    (mode : DeckMode) (excludeShowIds : List String) : List ShowRecommendation :=
  if (userRatingsOf inp userId).length < 3 then []
  else sortDescBy (fun r => r.score) (recommendationsOf inp userId mode excludeShowIds)

/-- An output record of the home-deck fallback composer (`HomePick` in
`homePicks.ts`). -/
structure HomePick where
  show_id : String
  title : String
  poster_path : Option String
  score : ℚ
  followingPercent : Option ℤ := none
  overallPercent : Option ℤ := none
  explanation : String := ""
  tags : List String := []
deriving DecidableEq, Repr

/-- Appending picks whose show identifier is not already present, in
order: the dedup pattern used for tiers A/B (`Map` keyed by `show_id`,
first occurrence wins) and for tier C (`!allPicks.some(...)` + `push`). -/
def addUniquePicks (acc : List HomePick) (l : List HomePick) : List HomePick :=
  l.foldl
    (fun acc pick =>
      if acc.any (fun p => p.show_id = pick.show_id) then acc else acc ++ [pick])
    acc

/-- Fallback composition core of `getHomePicks` (`homePicks.ts`): the
three tier candidate lists are passed in as the results of the
corresponding fetches; tiers A and B are combined with first-wins
dedup, tier C (already capped at 10 by `slice(0, 10)`) backfills only
when fewer than 3 picks exist, and the result is capped at 10. -/
def getHomePicks (candidateFromFollows candidateFromCommunity trendingPicks :
    List HomePick) : List HomePick :=
  let combinedPicks := addUniquePicks [] (candidateFromFollows ++ candidateFromCommunity)
  let allPicks :=
    if combinedPicks.length < 3 then
      addUniquePicks combinedPicks (trendingPicks.take 10)
    else combinedPicks
  allPicks.take 10

/-- A concrete tier-A pick used to exercise the fallback composer. -/
def pickA : HomePick := { show_id := "h1", title := "A", poster_path := none, score := 8 }

/-- A concrete tier-B pick. -/
def pickB : HomePick := { show_id := "h2", title := "B", poster_path := none, score := 7 }

/-- A tier-B pick sharing `pickA`'s show identifier. -/
def pickDup : HomePick :=
  { show_id := "h1", title := "Duplicate", poster_path := none, score := 5 }

/-- A concrete trending-tier pick. -/
def pickT : HomePick := { show_id := "h3", title := "T", poster_path := none, score := 7 }

/-- A small concrete snapshot used to exercise the pipeline: the
requester `me` has three ratings; `u1` (followed) and `u2` each rated
the candidate show `sx`, sharing no show with `me` (similarity 0.3). -/
def sampleInput : FeedInput :=
  { allRatings :=
      [ { user_id := "me", show_id := "s1", enjoyment := 5 }
      , { user_id := "me", show_id := "s2", enjoyment := 6 }
      , { user_id := "me", show_id := "s3", enjoyment := 7 }
      , { user_id := "u1", show_id := "sx", enjoyment := 5 }
      , { user_id := "u2", show_id := "sx", enjoyment := 10 } ]
    profiles := [⟨"me", "me"⟩, ⟨"u1", "u1"⟩, ⟨"u2", "u2"⟩]
    follows := [⟨"me", "u1"⟩]
    shows := [{ id := "sx", title := "Show X" }] }

/-- The contribution group that `sampleInput` produces for show `sx`. -/
def sampleGroup : List Contribution :=
  [ { user_id := "u1", enjoyment := 5, similarity := 3/10, isFollowed := true }
  , { user_id := "u2", enjoyment := 10, similarity := 3/10, isFollowed := false } ]

/-- A minimal snapshot in which show `sy` has exactly one rater other
than the requester `me`. -/
def soloRaterInput : FeedInput :=
  { allRatings :=
      [ { user_id := "me", show_id := "s1", enjoyment := 5 }
      , { user_id := "u1", show_id := "sy", enjoyment := 8 } ]
    profiles := [⟨"me", "me"⟩, ⟨"u1", "u1"⟩]
    follows := []
    shows := [{ id := "sy", title := "Show Y" }] }

/-- Spec-side deck-mode multiplier, modelled from the spec's words for
comparison with the code: `+0.1` when the plain average hook sub-score
is at least 7, `+0.1` when the plain average enjoyment across
contributors is at least 7, `+0.15` for an easy-watch tag (planned
mode: payoff / consistency). -/
def deckMultiplierClaim (mode : DeckMode) (g : List Contribution)
    (tags : List String) : ℚ :=
  match mode with
  | .tonight =>
      1 + (if 7 ≤ avgField g (fun r => r.hook) then 1/10 else 0)
        + (if 7 ≤ (g.map (fun r => r.enjoyment)).sum / (g.length : ℚ) then 1/10 else 0)
        + (if tags.contains "easy watch" then 15/100 else 0)
  | .this_weekend =>
      1 + (if 7 ≤ avgField g (fun r => r.payoff) then 1/10 else 0)
        + (if 7 ≤ avgField g (fun r => r.consistency) then 1/10 else 0)

/-- Keys rated by both users: the shared-show set of the similarity
engine, as a finite set. -/
def sharedKeyFinset (A B : List (String × ℚ)) : Finset String :=
  (A.map Prod.fst).toFinset ∩ (B.map Prod.fst).toFinset

/-- Absolute enjoyment difference of two show → enjoyment maps at a key. -/
def keyDiff (A B : List (String × ℚ)) (s : String) : ℚ :=
  |(mapLookup A s).getD 0 - (mapLookup B s).getD 0|

example : computeRecommendStats [] = ⟨0, 0, none⟩ := by
  norm_num [computeRecommendStats]

example :
    computeRecommendStats [⟨some true⟩, ⟨some true⟩, ⟨some false⟩] =
      ⟨3, 2, some 67⟩ := by
  norm_num [computeRecommendStats, jsRound]

example :
    calculateSimilarity [("a", 5), ("b", 7)] [("a", 5), ("b", 7), ("c", 2)] =
      3/10 := by
  norm_num [calculateSimilarity, mapHas, mapLookup]

example :
    calculateSimilarity [("a", 0), ("b", 0), ("c", 10)] [("a", 10), ("b", 10), ("c", 0)]
      = 0 := by
  simp [calculateSimilarity, mapHas, mapLookup]
  norm_num

theorem foldl_add_map {α : Type} (f : α → ℚ) (l : List α) (c : ℚ) :
    l.foldl (fun acc x => acc + f x) c = c + (l.map f).sum := by
  induction l generalizing c with
  | nil => simp
  | cons h t ih => simp [ih, add_assoc]

theorem foldl_pushSome_eq_filterMap {α β : Type} (f : α → Option β) (l : List α)
    (acc : List β) :
    l.foldl (fun recs x => match f x with | some b => recs ++ [b] | none => recs) acc
      = acc ++ l.filterMap f := by
  induction l generalizing acc with
  | nil => simp
  | cons h t ih => cases hf : f h <;> simp [hf, ih]

theorem insertDescBy_perm {α : Type} (key : α → ℚ) (x : α) (l : List α) :
    List.Perm (insertDescBy key x l) (x :: l) := by
  induction l with
  | nil => exact List.Perm.refl _
  | cons y ys ih =>
    by_cases h : key y < key x
    · rw [show insertDescBy key x (y :: ys) = x :: y :: ys from by
        simp [insertDescBy, h]]
    · rw [show insertDescBy key x (y :: ys) = y :: insertDescBy key x ys from by
        simp [insertDescBy, h]]
      exact (ih.cons y).trans (List.Perm.swap x y ys)

theorem sortDescBy_perm {α : Type} (key : α → ℚ) (l : List α) :
    List.Perm (sortDescBy key l) l := by
  suffices h : ∀ (l : List α) (acc : List α),
      List.Perm (l.foldl (fun acc x => insertDescBy key x acc) acc) (acc ++ l) by
    simpa using h l []
  intro l
  induction l with
  | nil => intro acc; simp
  | cons x t ih =>
    intro acc
    exact ((ih _).trans ((insertDescBy_perm key x acc).append_right t)).trans
      List.perm_middle.symm

theorem mem_insertDescBy {α : Type} {key : α → ℚ} {x a : α} {l : List α} :
    a ∈ insertDescBy key x l ↔ a = x ∨ a ∈ l := by
  induction l with
  | nil => simp [insertDescBy]
  | cons y ys ih =>
    by_cases h : key y < key x
    · simp [insertDescBy, h]
    · simp [insertDescBy, h, ih]
      tauto

theorem insertDescBy_pairwise {α : Type} {key : α → ℚ} {x : α} {l : List α}
    (h : l.Pairwise (fun a b => key b ≤ key a)) :
    (insertDescBy key x l).Pairwise (fun a b => key b ≤ key a) := by
  induction l with
  | nil => simp [insertDescBy]
  | cons y ys ih =>
    rcases List.pairwise_cons.mp h with ⟨hy, hys⟩
    by_cases hlt : key y < key x
    · rw [show insertDescBy key x (y :: ys) = x :: y :: ys from by
        simp [insertDescBy, hlt]]
      refine List.pairwise_cons.mpr ⟨?_, h⟩
      intro z hz
      rcases List.mem_cons.mp hz with rfl | hz
      · exact le_of_lt hlt
      · exact le_trans (hy z hz) (le_of_lt hlt)
    · rw [show insertDescBy key x (y :: ys) = y :: insertDescBy key x ys from by
        simp [insertDescBy, hlt]]
      refine List.pairwise_cons.mpr ⟨?_, ih hys⟩
      intro z hz
      rcases mem_insertDescBy.mp hz with rfl | hz
      · exact le_of_not_lt hlt
      · exact hy z hz

theorem sortDescBy_pairwise {α : Type} (key : α → ℚ) (l : List α) :
    (sortDescBy key l).Pairwise (fun a b => key b ≤ key a) := by
  suffices h : ∀ (l : List α) (acc : List α),
      acc.Pairwise (fun a b => key b ≤ key a) →
      (l.foldl (fun acc x => insertDescBy key x acc) acc).Pairwise
        (fun a b => key b ≤ key a) by
    exact h l [] (List.Pairwise.nil)
  intro l
  induction l with
  | nil => intro acc hacc; simpa
  | cons x t ih =>
    intro acc hacc
    exact ih _ (insertDescBy_pairwise hacc)

theorem keys_nodup_unique {β : Type} {l : List (String × β)}
    (h : (l.map Prod.fst).Nodup) {a : String} {b c : β}
    (h1 : (a, b) ∈ l) (h2 : (a, c) ∈ l) : b = c := by
  induction l with
  | nil => cases h1
  | cons p t ih =>
    simp only [List.map_cons, List.nodup_cons] at h
    rcases h with ⟨hp, ht⟩
    rcases List.mem_cons.mp h1 with h1' | h1'
    · rcases List.mem_cons.mp h2 with h2' | h2'
      · simpa using h1'.trans h2'.symm
      · exfalso
        apply hp
        rw [← h1']
        exact List.mem_map.mpr ⟨(a, c), h2', rfl⟩
    · rcases List.mem_cons.mp h2 with h2' | h2'
      · exfalso
        apply hp
        rw [← h2']
        exact List.mem_map.mpr ⟨(a, b), h1', rfl⟩
      · exact ih ht h1' h2'

theorem groupFold_invariant {α β : Type} (key : α → String) (val : α → β) :
    ∀ (l : List α) (acc : List (String × List β)) (done : List α),
      (acc.map Prod.fst).Nodup →
      (∀ p ∈ acc, p.2 = (done.filter (fun x => key x = p.1)).map val) →
      (∀ s, s ∈ acc.map Prod.fst ↔ s ∈ done.map key) →
      ((l.foldl (fun acc x => insertGroup acc (key x) (val x)) acc).map Prod.fst).Nodup ∧
      (∀ p ∈ l.foldl (fun acc x => insertGroup acc (key x) (val x)) acc,
          p.2 = ((done ++ l).filter (fun x => key x = p.1)).map val) ∧
      (∀ s, s ∈ (l.foldl (fun acc x => insertGroup acc (key x) (val x)) acc).map Prod.fst ↔
          s ∈ (done ++ l).map key) := by
  intro l
  induction l with
  | nil =>
    intro acc done hnd hcontent hkeys
    refine ⟨hnd, ?_, ?_⟩
    · intro p hp
      simpa using hcontent p hp
    · intro s
      simpa using hkeys s
  | cons x t ih =>
    intro acc done hnd hcontent hkeys
    have hstep :
        ((t.foldl (fun acc x => insertGroup acc (key x) (val x))
            (insertGroup acc (key x) (val x))).map Prod.fst).Nodup ∧
        (∀ p ∈ t.foldl (fun acc x => insertGroup acc (key x) (val x))
            (insertGroup acc (key x) (val x)),
            p.2 = (((done ++ [x]) ++ t).filter (fun y => key y = p.1)).map val) ∧
        (∀ s, s ∈ (t.foldl (fun acc x => insertGroup acc (key x) (val x))
            (insertGroup acc (key x) (val x))).map Prod.fst ↔
            s ∈ ((done ++ [x]) ++ t).map key) := by
      apply ih
      · -- keys of the updated accumulator stay nodup
        by_cases hc : acc.any (fun p => p.1 = key x)
        · have hkeq : (insertGroup acc (key x) (val x)).map Prod.fst = acc.map Prod.fst := by
            simp only [insertGroup, if_pos hc, List.map_map]
            apply List.map_congr_left
            intro p _
            by_cases hpk : p.1 = key x <;> simp [hpk]
          rw [hkeq]; exact hnd
        · have hnomem : key x ∉ acc.map Prod.fst := by
            intro hmem
            rcases List.mem_map.mp hmem with ⟨p, hpmem, hpeq⟩
            exact hc (List.any_eq_true.mpr ⟨p, hpmem, by simp [hpeq]⟩)
          have hnomem' : ∀ b : List β, (key x, b) ∉ acc := by
            intro b hb
            exact hnomem (List.mem_map.mpr ⟨(key x, b), hb, rfl⟩)
          simp only [insertGroup, if_neg hc, List.map_append, List.map_cons, List.map_nil]
          simpa [List.nodup_append] using ⟨hnd, hnomem'⟩
      · -- updated content invariant
        by_cases hc : acc.any (fun p => p.1 = key x)
        · intro p hp
          simp only [insertGroup, if_pos hc] at hp
          rcases List.mem_map.mp hp with ⟨q, hqmem, hqe⟩
          by_cases hqk : q.1 = key x
          · have hp1 : p.1 = key x := by rw [← hqe]; simp [hqk]
            have hp2 : p.2 = q.2 ++ [val x] := by rw [← hqe]; simp [hqk]
            rw [hp2, hcontent q hqmem, hp1, hqk]
            simp [List.filter_append]
          · have hpq : p = q := by rw [← hqe]; simp [hqk]
            rw [hpq, hcontent q hqmem]
            have : key x ≠ q.1 := fun hk => hqk hk.symm
            simp [List.filter_append, this]
        · intro p hp
          simp only [insertGroup, if_neg hc, List.mem_append, List.mem_cons] at hp
          rcases hp with hp | hp
          · have hne : key x ≠ p.1 := by
              intro hk
              apply hc
              rcases List.mem_map.mp ((hkeys p.1).mpr ((hkeys p.1).mp
                (List.mem_map.mpr ⟨p, hp, rfl⟩))) with ⟨q, hq, hqe⟩
              exact List.any_eq_true.mpr ⟨q, hq, by simp [hqe, hk]⟩
            rw [hcontent p hp]
            simp [List.filter_append, hne]
          · rcases hp with hp | hp
            · have hdone : done.filter (fun y => key y = key x) = [] := by
                apply List.filter_eq_nil_iff.mpr
                intro y hy hky
                have : key x ∈ done.map key :=
                  List.mem_map.mpr ⟨y, hy, by simpa using hky⟩
                have : key x ∈ acc.map Prod.fst := (hkeys (key x)).mpr this
                rcases List.mem_map.mp this with ⟨q, hq, hqe⟩
                exact hc (List.any_eq_true.mpr ⟨q, hq, by simp [hqe]⟩)
              rw [hp]
              simp [List.filter_append, hdone]
            · cases hp
      · -- updated key-membership invariant
        intro s
        by_cases hc : acc.any (fun p => p.1 = key x)
        · have hkeq : (insertGroup acc (key x) (val x)).map Prod.fst = acc.map Prod.fst := by
            simp only [insertGroup, if_pos hc, List.map_map]
            apply List.map_congr_left
            intro p _
            by_cases hpk : p.1 = key x <;> simp [hpk]
          have hkx : key x ∈ done.map key := by
            rcases List.any_eq_true.mp hc with ⟨q, hq, hqe⟩
            exact (hkeys (key x)).mp (List.mem_map.mpr ⟨q, hq, by simpa using hqe⟩)
          rw [hkeq]
          simp only [List.map_append, List.map_cons, List.map_nil, List.mem_append,
            List.mem_cons]
          constructor
          · intro hs; exact Or.inl ((hkeys s).mp hs)
          · intro hs
            rcases hs with hs | hs
            · exact (hkeys s).mpr hs
            · rcases hs with hs | hs
              · rw [hs]; exact (hkeys (key x)).mpr hkx
              · cases hs
        · simp only [insertGroup, if_neg hc, List.map_append, List.map_cons, List.map_nil,
            List.mem_append, List.mem_cons]
          constructor
          · intro hs
            rcases hs with hs | hs
            · exact Or.inl ((hkeys s).mp hs)
            · exact Or.inr hs
          · intro hs
            rcases hs with hs | hs
            · exact Or.inl ((hkeys s).mpr hs)
            · exact Or.inr hs
    simpa using hstep

theorem groupFold_keys_nodup {α β : Type} (key : α → String) (val : α → β) (l : List α) :
    ((groupFold key val l).map Prod.fst).Nodup :=
  (groupFold_invariant key val l [] [] (by simp) (by simp) (by simp)).1

theorem groupFold_content {α β : Type} {key : α → String} {val : α → β} {l : List α}
    {s : String} {g : List β} (h : (s, g) ∈ groupFold key val l) :
    g = (l.filter (fun x => key x = s)).map val := by
  have := (groupFold_invariant key val l [] [] (by simp) (by simp) (by simp)).2.1 (s, g) h
  simpa using this

theorem groupFold_keys_iff {α β : Type} (key : α → String) (val : α → β) (l : List α)
    (s : String) :
    s ∈ (groupFold key val l).map Prod.fst ↔ s ∈ l.map key := by
  have := (groupFold_invariant key val l [] [] (by simp) (by simp) (by simp)).2.2 s
  simpa using this

theorem aggregateRatings_sums (mode : DeckMode) (pm : List (String × Profile))
    (rs : List Contribution) :
    (aggregateRatings mode pm rs).1 =
      (rs.map (fun r => r.enjoyment *
        ((r.similarity * (7/10) + (if r.isFollowed then 3/10 else 0)) *
          getRecencyMultiplier r.created_days mode))).sum ∧
    (aggregateRatings mode pm rs).2.1 =
      (rs.map (fun r =>
        (r.similarity * (7/10) + (if r.isFollowed then 3/10 else 0)) *
          getRecencyMultiplier r.created_days mode)).sum := by
  suffices h : ∀ (rs : List Contribution) (a b : ℚ) (cs : List Contributor),
      (rs.foldl (aggStep mode pm) (a, b, cs)).1 =
        a + (rs.map (fun r => r.enjoyment *
          ((r.similarity * (7/10) + (if r.isFollowed then 3/10 else 0)) *
            getRecencyMultiplier r.created_days mode))).sum ∧
      (rs.foldl (aggStep mode pm) (a, b, cs)).2.1 =
        b + (rs.map (fun r =>
          (r.similarity * (7/10) + (if r.isFollowed then 3/10 else 0)) *
            getRecencyMultiplier r.created_days mode)).sum by
    simpa [aggregateRatings] using h rs 0 0 []
  intro rs
  induction rs with
  | nil => intro a b cs; simp
  | cons r t ih =>
    intro a b cs
    simp only [List.foldl_cons, List.map_cons, List.sum_cons]
    have hstep : aggStep mode pm (a, b, cs) r =
        (a + r.enjoyment *
          ((r.similarity * (7/10) + (if r.isFollowed then 3/10 else 0)) *
            getRecencyMultiplier r.created_days mode),
         b + ((r.similarity * (7/10) + (if r.isFollowed then 3/10 else 0)) *
            getRecencyMultiplier r.created_days mode),
         (aggStep mode pm (a, b, cs) r).2.2) := by
      simp [aggStep]
    rw [hstep]
    rcases ih _ _ ((aggStep mode pm (a, b, cs) r).2.2) with ⟨ih1, ih2⟩
    refine ⟨?_, ?_⟩
    · rw [ih1]; ring
    · rw [ih2]; ring

theorem avgRatingOfGroup_tags (s : String) (b : ℚ) (g : List Contribution) :
    (avgRatingOfGroup s b g).tags = some (groupTags g) := rfl

theorem scoreShow_some_inv {mode : DeckMode} {pm : List (String × Profile)}
    {sm : List (String × Show)} {s : String} {g : List Contribution}
    {rec : ShowRecommendation}
    (h : scoreShow mode pm sm s g = some rec) :
    2 ≤ g.length ∧ (aggregateRatings mode pm g).2.1 ≠ 0 ∧ rec.show_id = s ∧
    rec.score = max 0 (min 10 (applyDeckModeMultiplier
      ((aggregateRatings mode pm g).1 / (aggregateRatings mode pm g).2.1) mode
      (avgRatingOfGroup s
        ((aggregateRatings mode pm g).1 / (aggregateRatings mode pm g).2.1) g)
      (some (groupTags g)))) := by
  by_cases h2 : g.length < 2
  · simp [scoreShow, h2] at h
  by_cases h0 : (aggregateRatings mode pm g).2.1 = 0
  · simp [scoreShow, h2, h0] at h
  cases hL : mapLookup sm s with
  | none => simp [scoreShow, h2, h0, hL] at h
  | some shw =>
    simp only [scoreShow, if_neg h2, if_neg h0, hL, avgRatingOfGroup_tags] at h
    rcases Option.some.inj h with rfl
    exact ⟨le_of_not_lt h2, h0, rfl, rfl⟩

theorem scoreShow_map_score {mode : DeckMode} {pm : List (String × Profile)}
    {sm : List (String × Show)} {s : String} {g : List Contribution}
    (h2 : ¬ g.length < 2) (h0 : (aggregateRatings mode pm g).2.1 ≠ 0)
    (hL : (mapLookup sm s).isSome = true) :
    (scoreShow mode pm sm s g).map (fun r => r.score) =
      some (max 0 (min 10 (applyDeckModeMultiplier
        ((aggregateRatings mode pm g).1 / (aggregateRatings mode pm g).2.1) mode
        (avgRatingOfGroup s
          ((aggregateRatings mode pm g).1 / (aggregateRatings mode pm g).2.1) g)
        (some (groupTags g))))) := by
  rcases Option.isSome_iff_exists.mp hL with ⟨shw, hshw⟩
  simp only [scoreShow, if_neg h2, if_neg h0, hshw, avgRatingOfGroup_tags]
  rfl

theorem mem_recommendationsOf {inp : FeedInput} {uid : String} {mode : DeckMode}
    {excl : List String} {rec : ShowRecommendation} :
    rec ∈ recommendationsOf inp uid mode excl ↔
      ∃ s g, (s, g) ∈ showRatingsOf inp uid excl ∧
        scoreShow mode (profilesMapOf inp) (showsMapOf inp) s g = some rec := by
  unfold recommendationsOf pushSomeFold
  rw [foldl_pushSome_eq_filterMap]
  simp only [List.nil_append, List.mem_filterMap]
  constructor
  · rintro ⟨g, hg, hsg⟩
    exact ⟨g.1, g.2, hg, hsg⟩
  · rintro ⟨s, g, hg, hsg⟩
    exact ⟨(s, g), hg, hsg⟩

theorem mem_out {inp : FeedInput} {uid : String} {mode : DeckMode}
    {excl : List String} {rec : ShowRecommendation}
    (h : rec ∈ getPersonalizedRecommendations inp uid mode excl) :
    ∃ s g, (s, g) ∈ showRatingsOf inp uid excl ∧
      scoreShow mode (profilesMapOf inp) (showsMapOf inp) s g = some rec := by
  unfold getPersonalizedRecommendations at h
  by_cases h3 : (userRatingsOf inp uid).length < 3
  · rw [if_pos h3] at h; cases h
  · rw [if_neg h3] at h
    exact mem_recommendationsOf.mp ((sortDescBy_perm _ _).mem_iff.mp h)

theorem mapHas_iff {β : Type} (m : List (String × β)) (s : String) :
    mapHas m s = true ↔ s ∈ m.map Prod.fst := by
  simp [mapHas, List.any_eq_true, List.mem_map]

theorem sharedList_eq_filter_mem (A B : List (String × ℚ)) :
    (A.map Prod.fst).filter (fun s => mapHas B s) =
      (A.map Prod.fst).filter (fun s => decide (s ∈ B.map Prod.fst)) := by
  apply List.filter_congr
  intro s _
  rw [Bool.eq_iff_iff]
  simp [mapHas_iff]

theorem sharedList_toFinset (A B : List (String × ℚ)) :
    ((A.map Prod.fst).filter (fun s => mapHas B s)).toFinset = sharedKeyFinset A B := by
  rw [sharedList_eq_filter_mem]
  rw [List.toFinset_filter]
  rw [sharedKeyFinset, ← Finset.filter_mem_eq_inter]
  apply Finset.filter_congr
  intro s _
  constructor
  · intro h; simpa using h
  · intro h; simpa using h

theorem sharedList_length (A B : List (String × ℚ))
    (hA : (A.map Prod.fst).Nodup) :
    ((A.map Prod.fst).filter (fun s => mapHas B s)).length =
      (sharedKeyFinset A B).card := by
  rw [← sharedList_toFinset A B]
  exact (List.toFinset_card_of_nodup (hA.filter _)).symm

theorem calcSim_eq (A B : List (String × ℚ)) :
    calculateSimilarity A B =
      if ((A.map Prod.fst).filter (fun s => mapHas B s)).length < 3 then 3/10
      else
        max 0 (min 1 (1 -
          ((((A.map Prod.fst).filter (fun s => mapHas B s)).map (keyDiff A B)).sum /
            (((A.map Prod.fst).filter (fun s => mapHas B s)).length : ℚ)) / 10)) := by
  unfold calculateSimilarity keyDiff
  simp only [foldl_add_map, zero_add]

theorem sharedList_sum (A B : List (String × ℚ)) (hA : (A.map Prod.fst).Nodup) :
    (((A.map Prod.fst).filter (fun s => mapHas B s)).map (keyDiff A B)).sum =
      (sharedKeyFinset A B).sum (keyDiff A B) := by
  rw [← sharedList_toFinset A B]
  exact (List.sum_toFinset _ (hA.filter _)).symm

/-- C1: for every pair of show-to-enjoyment maps, `calculateSimilarity`
returns exactly 0.3 when the two maps share fewer than 3 show keys;
otherwise it returns `1 - meanAbsDiff / 10` clamped to `[0, 1]`, where
`meanAbsDiff` is the mean absolute difference of the two enjoyment
values over the shared shows; in particular, identical enjoyment on
every shared show (with at least 3 shared) yields 1.0, and an absolute
difference of 10 on every shared show yields 0.0. -/
theorem claim_C1_similarity (A B : List (String × ℚ))
    (hA : (A.map Prod.fst).Nodup) :
    ((sharedKeyFinset A B).card < 3 → calculateSimilarity A B = 3/10) ∧
    (3 ≤ (sharedKeyFinset A B).card →
      calculateSimilarity A B =
        max 0 (min 1 (1 -
          ((sharedKeyFinset A B).sum (keyDiff A B) /
            ((sharedKeyFinset A B).card : ℚ)) / 10))) ∧
    (3 ≤ (sharedKeyFinset A B).card →
      (∀ s ∈ sharedKeyFinset A B, mapLookup A s = mapLookup B s) →
      calculateSimilarity A B = 1) ∧
    (3 ≤ (sharedKeyFinset A B).card →
      (∀ s ∈ sharedKeyFinset A B, keyDiff A B s = 10) →
      calculateSimilarity A B = 0) := by
  have hlen := sharedList_length A B hA
  have hsum := sharedList_sum A B hA
  have heq := calcSim_eq A B
  refine ⟨?_, ?_, ?_, ?_⟩
  · intro hcard
    rw [heq, if_pos (by rw [hlen]; exact hcard)]
  · intro hcard
    rw [heq, if_neg (by rw [hlen]; omega), hsum, hlen]
  · intro hcard hident
    have hzero : (sharedKeyFinset A B).sum (keyDiff A B) = 0 := by
      apply Finset.sum_eq_zero
      intro s hs
      rw [keyDiff, hident s hs, sub_self, abs_zero]
    rw [heq, if_neg (by rw [hlen]; omega), hsum, hzero]
    norm_num
  · intro hcard hdiff
    have hten : (sharedKeyFinset A B).sum (keyDiff A B) =
        ((sharedKeyFinset A B).card : ℚ) * 10 := by
      rw [Finset.sum_congr rfl hdiff]
      simp [mul_comm]
    have hcard0 : ((sharedKeyFinset A B).card : ℚ) ≠ 0 := by
      have : 0 < (sharedKeyFinset A B).card := by omega
      exact_mod_cast Nat.pos_iff_ne_zero.mp this
    rw [heq, if_neg (by rw [hlen]; omega), hsum, hlen, hten,
      mul_div_cancel_left₀ _ hcard0]
    norm_num

/-- Witness for C1 at a concrete pair of maps with 3 identical shared
shows. -/
theorem claim_C1_witness :
    3 ≤ (sharedKeyFinset [("a", (5:ℚ)), ("b", 7), ("c", 2)]
          [("a", 5), ("b", 7), ("c", 2)]).card ∧
    calculateSimilarity [("a", (5:ℚ)), ("b", 7), ("c", 2)]
        [("a", 5), ("b", 7), ("c", 2)] = 1 := by
  have hcard : 3 ≤ (sharedKeyFinset [("a", (5:ℚ)), ("b", 7), ("c", 2)]
      [("a", 5), ("b", 7), ("c", 2)]).card := by decide
  exact ⟨hcard,
    (claim_C1_similarity _ _ (by decide)).2.2.1 hcard (fun s _ => rfl)⟩

/-- C10: `calculateSimilarity` is symmetric — for every pair of
show-to-enjoyment maps `A` and `B`, `calculateSimilarity A B =
calculateSimilarity B A`: the shared-show intersection, the below-3
default branch and the mean-absolute-difference formula depend only on
the unordered pair. -/
theorem claim_C10_symmetric (A B : List (String × ℚ))
    (hA : (A.map Prod.fst).Nodup) (hB : (B.map Prod.fst).Nodup) :
    calculateSimilarity A B = calculateSimilarity B A := by
  have hperm : List.Perm ((A.map Prod.fst).filter (fun s => mapHas B s))
      ((B.map Prod.fst).filter (fun s => mapHas A s)) := by
    apply List.perm_of_nodup_nodup_toFinset_eq (hA.filter _) (hB.filter _)
    rw [sharedList_toFinset A B, sharedList_toFinset B A]
    rw [sharedKeyFinset, sharedKeyFinset, Finset.inter_comm]
  have hlen := hperm.length_eq
  have hsum : (((A.map Prod.fst).filter (fun s => mapHas B s)).map (keyDiff A B)).sum
      = (((B.map Prod.fst).filter (fun s => mapHas A s)).map (keyDiff B A)).sum := by
    have h1 : (((B.map Prod.fst).filter (fun s => mapHas A s)).map (keyDiff B A)) =
        (((B.map Prod.fst).filter (fun s => mapHas A s)).map (keyDiff A B)) := by
      apply List.map_congr_left
      intro s _
      rw [keyDiff, keyDiff, abs_sub_comm]
    rw [h1]
    exact (hperm.map (keyDiff A B)).sum_eq
  rw [calcSim_eq A B, calcSim_eq B A, hlen, hsum]

/-- Witness for C10 at a concrete pair of maps. -/
theorem claim_C10_witness :
    calculateSimilarity [("a", (1:ℚ)), ("b", 2)] [("b", (3:ℚ)), ("c", 4)] =
      calculateSimilarity [("b", (3:ℚ)), ("c", 4)] [("a", (1:ℚ)), ("b", 2)] :=
  claim_C10_symmetric _ _ (by decide) (by decide)

/-- C2: the recency multiplier is a pure function of the rating's age in
whole days (floored) and the mode, and equals the §4.2 table exactly,
including at the boundaries: age < 30 days gives 1.3 in immediate
('tonight') mode and 1.1 in planned ('this_weekend') mode; age 30
through 180 days inclusive gives 1.0 in both modes; age > 180 days
gives 0.8 in both modes (so age 29 maps to 1.3/1.1, ages 30 and 180 map
to 1.0, and age 181 maps to 0.8). -/
theorem claim_C2_recency_table (d : ℤ) (mode : DeckMode) :
    (d < 30 → getRecencyMultiplier d .tonight = 13/10 ∧
      getRecencyMultiplier d .this_weekend = 11/10) ∧
    (30 ≤ d → d ≤ 180 → getRecencyMultiplier d mode = 1) ∧
    (180 < d → getRecencyMultiplier d mode = 8/10) ∧
    (getRecencyMultiplier 29 .tonight = 13/10 ∧
      getRecencyMultiplier 29 .this_weekend = 11/10) ∧
    (getRecencyMultiplier 30 mode = 1 ∧ getRecencyMultiplier 180 mode = 1) ∧
    getRecencyMultiplier 181 mode = 8/10 := by
  refine ⟨fun h => ⟨?_, ?_⟩, fun h1 h2 => ?_, fun h => ?_, ⟨?_, ?_⟩, ⟨?_, ?_⟩, ?_⟩
  · simp [getRecencyMultiplier, h]
  · simp [getRecencyMultiplier, h]
  · have hn : ¬ (d < 30) := by omega
    cases mode <;> simp [getRecencyMultiplier, hn, h2]
  · have hn : ¬ (d < 30) := by omega
    have hn2 : ¬ (d ≤ 180) := by omega
    cases mode <;> simp [getRecencyMultiplier, hn, hn2]
  · norm_num [getRecencyMultiplier]
  · norm_num [getRecencyMultiplier]
  · cases mode <;> norm_num [getRecencyMultiplier]
  · cases mode <;> norm_num [getRecencyMultiplier]
  · cases mode <;> norm_num [getRecencyMultiplier]

/-- Witness for C2 at the boundary ages 29 and 181. -/
theorem claim_C2_witness :
    (getRecencyMultiplier 29 .tonight = 13/10 ∧
      getRecencyMultiplier 29 .this_weekend = 11/10) ∧
    getRecencyMultiplier 181 .this_weekend = 8/10 :=
  ⟨(claim_C2_recency_table 29 .tonight).1 (by decide),
   (claim_C2_recency_table 181 .this_weekend).2.2.1 (by decide)⟩

/-- C5: for every user whose total number of ratings is 0, 1, or 2,
`getPersonalizedRecommendations` returns the empty list, regardless of
mode and exclusion set — a defined empty outcome, not an error. -/
theorem claim_C5_min_ratings_gate (inp : FeedInput) (uid : String) (mode : DeckMode)
    (excl : List String)
    (h : (inp.allRatings.filter (fun r => r.user_id = uid)).length < 3) :
    getPersonalizedRecommendations inp uid mode excl = [] := by
  unfold getPersonalizedRecommendations
  rw [if_pos]
  exact h

/-- Witness for C5: `u1` has a single rating in `sampleInput`. -/
theorem claim_C5_witness :
    getPersonalizedRecommendations sampleInput "u1" .tonight [] = [] :=
  claim_C5_min_ratings_gate sampleInput "u1" .tonight [] (by decide)

/-- C7: `computeRecommendStats` returns `{total, positive, percent}`
where `total` counts the ratings whose recommend flag is present,
`positive` counts those with `recommend = true`, and
`percent = round(100 * positive / total)` when `total > 0` and `null`
(not zero) when `total = 0`; in particular the two listed example
evaluations hold. -/
theorem claim_C7_computeRecommendStats (ratings : List RecRow) :
    (computeRecommendStats ratings).total =
        (ratings.filter (fun r => r.recommend.isSome)).length ∧
    (computeRecommendStats ratings).positive =
        (ratings.filter (fun r => r.recommend = some true)).length ∧
    (0 < (computeRecommendStats ratings).total →
        (computeRecommendStats ratings).percent =
          some (jsRound
            (100 * ((ratings.filter (fun r => r.recommend = some true)).length : ℚ) /
              ((ratings.filter (fun r => r.recommend.isSome)).length : ℚ)))) ∧
    ((computeRecommendStats ratings).total = 0 →
        (computeRecommendStats ratings).percent = none) ∧
    computeRecommendStats [] = ⟨0, 0, none⟩ ∧
    computeRecommendStats [⟨some true⟩, ⟨some true⟩, ⟨some false⟩] = ⟨3, 2, some 67⟩ := by
  have hfilter :
      (ratings.filter (fun r => r.recommend.isSome)).filter
          (fun r => r.recommend = some true) =
        ratings.filter (fun r => r.recommend = some true) := by
    rw [List.filter_filter]
    apply List.filter_congr
    intro r _
    cases hr : r.recommend <;> simp [hr]
  refine ⟨rfl, ?_, ?_, ?_, ?_, ?_⟩
  · simpa [computeRecommendStats] using congrArg List.length hfilter
  · intro hpos
    have htot : (ratings.filter (fun r => r.recommend.isSome)).length ≠ 0 := by
      simpa [computeRecommendStats] using Nat.pos_iff_ne_zero.mp hpos
    have harith :
        (((ratings.filter (fun r => r.recommend.isSome)).filter
            (fun r => r.recommend = some true)).length : ℚ) /
          ((ratings.filter (fun r => r.recommend.isSome)).length : ℚ) * 100 =
        100 * ((ratings.filter (fun r => r.recommend = some true)).length : ℚ) /
          ((ratings.filter (fun r => r.recommend.isSome)).length : ℚ) := by
      rw [hfilter]; ring
    simp only [computeRecommendStats, if_pos (Nat.pos_of_ne_zero htot), harith]
  · intro hz
    have : (ratings.filter (fun r => r.recommend.isSome)).length = 0 := by
      simpa [computeRecommendStats] using hz
    simp [computeRecommendStats, this]
  · norm_num [computeRecommendStats]
  · norm_num [computeRecommendStats, jsRound]

/-- Witness for C7's conditional clauses at a concrete rating list. -/
theorem claim_C7_witness :
    0 < (computeRecommendStats [⟨some true⟩, ⟨none⟩]).total ∧
    (computeRecommendStats [⟨some true⟩, ⟨none⟩]).percent =
      some (jsRound
        (100 * ((([⟨some true⟩, ⟨none⟩] : List RecRow).filter
            (fun r => r.recommend = some true)).length : ℚ) /
          ((([⟨some true⟩, ⟨none⟩] : List RecRow).filter
            (fun r => r.recommend.isSome)).length : ℚ))) :=
  ⟨by decide,
   (claim_C7_computeRecommendStats [⟨some true⟩, ⟨none⟩]).2.2.1 (by decide)⟩

/-- C4: under the data-model invariant of at most one rating per
(rater, show) pair, a show appears in the output of
`getPersonalizedRecommendations` only if it has ratings from at least 2
distinct users other than the target user; in particular, every show
with exactly one contributing rater (other than the requesting user) is
absent from the returned list. -/
theorem claim_C4_min_raters (inp : FeedInput) (uid : String) (mode : DeckMode)
    (excl : List String)
    (hnd : (inp.allRatings.map (fun r => (r.user_id, r.show_id))).Nodup) :
    (∀ rec ∈ getPersonalizedRecommendations inp uid mode excl,
      2 ≤ ((inp.allRatings.filter
          (fun r => r.show_id = rec.show_id ∧ ¬ r.user_id = uid)).map
            (fun r => r.user_id)).toFinset.card) ∧
    (∀ showId : String,
      ((inp.allRatings.filter
          (fun r => r.show_id = showId ∧ ¬ r.user_id = uid)).map
            (fun r => r.user_id)).toFinset.card = 1 →
      showId ∉ (getPersonalizedRecommendations inp uid mode excl).map
        (fun r => r.show_id)) := by
  have main : ∀ rec ∈ getPersonalizedRecommendations inp uid mode excl,
      2 ≤ ((inp.allRatings.filter
          (fun r => r.show_id = rec.show_id ∧ ¬ r.user_id = uid)).map
            (fun r => r.user_id)).toFinset.card := by
    intro rec hrec
    obtain ⟨s, g, hsg, hscore⟩ := mem_out hrec
    obtain ⟨h2, -, hsid, -⟩ := scoreShow_some_inv hscore
    rw [showRatingsOf] at hsg
    have hg := groupFold_content hsg
    set L := (contributingOf inp uid excl).filter (fun r => r.show_id = s) with hL
    have hglen : g.length = L.length := by rw [hg, List.length_map]
    have hsubL : List.Sublist L inp.allRatings := by
      apply List.Sublist.trans (List.filter_sublist _)
      rw [contributingOf]
      exact List.filter_sublist _
    have hpairsL : (L.map (fun r => (r.user_id, r.show_id))).Nodup :=
      hnd.sublist (hsubL.map _)
    have hshowL : ∀ r ∈ L, r.show_id = s := by
      intro r hr
      have := (List.mem_filter.mp hr).2
      simpa using this
    have husers : (L.map (fun r => r.user_id)).Nodup := by
      have hmm : L.map (fun r => r.user_id) =
          (L.map (fun r => (r.user_id, r.show_id))).map Prod.fst := by
        rw [List.map_map]; rfl
      rw [hmm]
      apply hpairsL.map_on
      intro x hx y hy hxy
      rcases List.mem_map.mp hx with ⟨rx, hrx, hrex⟩
      rcases List.mem_map.mp hy with ⟨ry, hry, hrey⟩
      have hx2 : x.2 = s := by rw [← hrex]; exact hshowL rx hrx
      have hy2 : y.2 = s := by rw [← hrey]; exact hshowL ry hry
      exact Prod.ext hxy (hx2.trans hy2.symm)
    have hsubset : (L.map (fun r => r.user_id)).toFinset ⊆
        ((inp.allRatings.filter
          (fun r => r.show_id = rec.show_id ∧ ¬ r.user_id = uid)).map
            (fun r => r.user_id)).toFinset := by
      intro x hx
      rw [List.mem_toFinset] at hx ⊢
      rcases List.mem_map.mp hx with ⟨r, hr, hre⟩
      apply List.mem_map.mpr
      refine ⟨r, ?_, hre⟩
      have hrc : r ∈ contributingOf inp uid excl := (List.mem_filter.mp hr).1
      have hrall : r ∈ inp.allRatings := by
        rw [contributingOf] at hrc
        exact (List.mem_filter.mp hrc).1
      have hruid : ¬ r.user_id = uid := by
        rw [contributingOf] at hrc
        have := (List.mem_filter.mp hrc).2
        simp only [decide_eq_true_eq] at this
        exact this.1
      apply List.mem_filter.mpr
      refine ⟨hrall, ?_⟩
      simp only [decide_eq_true_eq]
      exact ⟨by rw [hsid]; exact hshowL r hr, hruid⟩
    have hcard1 : (L.map (fun r => r.user_id)).toFinset.card = L.length := by
      rw [List.toFinset_card_of_nodup husers, List.length_map]
    have := Finset.card_le_card hsubset
    omega
  refine ⟨main, ?_⟩
  intro showId hcard hmem
  rcases List.mem_map.mp hmem with ⟨rec, hrec, hre⟩
  have := main rec hrec
  rw [hre] at this
  omega

/-- Witness for C4 at `soloRaterInput`: show `sy` has exactly one rater
other than `me` and is absent from the output. -/
theorem claim_C4_witness :
    "sy" ∉ (getPersonalizedRecommendations soloRaterInput "me" .tonight []).map
      (fun r => r.show_id) :=
  (claim_C4_min_raters soloRaterInput "me" .tonight [] (by decide)).2 "sy" (by decide)

theorem ev_userRatings : userRatingsOf sampleInput "me" =
    [ { user_id := "me", show_id := "s1", enjoyment := 5 }
    , { user_id := "me", show_id := "s2", enjoyment := 6 }
    , { user_id := "me", show_id := "s3", enjoyment := 7 } ] := by
  simp [userRatingsOf, sampleInput]

theorem ev_userMap : userRatingsMapOf sampleInput "me" =
    [("s1", (5:ℚ)), ("s2", 6), ("s3", 7)] := by
  simp [userRatingsMapOf, ev_userRatings, buildMap, jsMapInsert]

theorem ev_simMap : similaritiesOf sampleInput "me" = [("u1", 3/10), ("u2", 3/10)] := by
  rw [similaritiesOf, ev_userMap]
  simp [sampleInput, groupFold, insertGroup, calculateSimilarity, mapHas, buildMap,
    jsMapInsert]

theorem ev_contrib : contributingOf sampleInput "me" [] =
    [ { user_id := "u1", show_id := "sx", enjoyment := 5 }
    , { user_id := "u2", show_id := "sx", enjoyment := 10 } ] := by
  simp only [contributingOf, ev_simMap, ev_userRatings]
  simp [sampleInput, mapLookup]

theorem ev_followed : followedSetOf sampleInput "me" = ["u1"] := by
  simp [followedSetOf, sampleInput]

theorem ev_showRatings : showRatingsOf sampleInput "me" [] = [("sx", sampleGroup)] := by
  rw [showRatingsOf, ev_contrib]
  simp [groupFold, insertGroup, mkContribution, ev_simMap, ev_followed, mapLookup,
    sampleGroup]

theorem ev_profiles : profilesMapOf sampleInput =
    [("me", ⟨"me", "me"⟩), ("u1", ⟨"u1", "u1"⟩), ("u2", ⟨"u2", "u2"⟩)] := by
  simp [profilesMapOf, sampleInput, buildMap, jsMapInsert]

theorem ev_shows : showsMapOf sampleInput =
    [("sx", { id := "sx", title := "Show X" })] := by
  simp [showsMapOf, sampleInput, buildMap, jsMapInsert]

set_option maxHeartbeats 1000000 in
theorem ev_out : (getPersonalizedRecommendations sampleInput "me" .tonight []).map
    (fun r => (r.show_id, r.score)) = [("sx", 155/24)] := by
  rw [getPersonalizedRecommendations, if_neg (by simp [ev_userRatings])]
  rw [recommendationsOf, ev_showRatings]
  norm_num [pushSomeFold, scoreShow, aggregateRatings, aggStep, ev_profiles, ev_shows,
    mapLookup, sampleGroup,
    avgRatingOfGroup, avgField, groupTags, applyDeckModeMultiplier, truthyAndGe7,
    getRecencyMultiplier, sortDescBy, insertDescBy]

/-- C3: in `getPersonalizedRecommendations`, for every candidate show,
every contributing rating by another user contributes
`weight = (similarity * 0.7 + (0.3 if the rater is followed else 0.0)) *
recencyMultiplier` to the accumulators `weightedSum` (scaled by that
rating's enjoyment) and `totalWeight`; if `totalWeight` is 0 the show
is dropped from the results, otherwise the show's base score equals
`weightedSum / totalWeight` (entering the final score through the
deck-mode multiplier and clamp). -/
theorem claim_C3_aggregator (inp : FeedInput) (uid : String) (mode : DeckMode)
    (excl : List String) :
    (∀ s g, (s, g) ∈ showRatingsOf inp uid excl →
      (aggregateRatings mode (profilesMapOf inp) g).1 =
        (g.map (fun c => c.enjoyment *
          ((c.similarity * (7/10) + (if c.isFollowed then 3/10 else 0)) *
            getRecencyMultiplier c.created_days mode))).sum ∧
      (aggregateRatings mode (profilesMapOf inp) g).2.1 =
        (g.map (fun c =>
          (c.similarity * (7/10) + (if c.isFollowed then 3/10 else 0)) *
            getRecencyMultiplier c.created_days mode)).sum) ∧
    (∀ s g, (s, g) ∈ showRatingsOf inp uid excl →
      (aggregateRatings mode (profilesMapOf inp) g).2.1 = 0 →
      s ∉ (getPersonalizedRecommendations inp uid mode excl).map (fun r => r.show_id)) ∧
    (∀ s g, (s, g) ∈ showRatingsOf inp uid excl →
      ¬ g.length < 2 →
      (aggregateRatings mode (profilesMapOf inp) g).2.1 ≠ 0 →
      (mapLookup (showsMapOf inp) s).isSome = true →
      (scoreShow mode (profilesMapOf inp) (showsMapOf inp) s g).map (fun r => r.score) =
        some (max 0 (min 10 (applyDeckModeMultiplier
          ((aggregateRatings mode (profilesMapOf inp) g).1 /
            (aggregateRatings mode (profilesMapOf inp) g).2.1) mode
          (avgRatingOfGroup s
            ((aggregateRatings mode (profilesMapOf inp) g).1 /
              (aggregateRatings mode (profilesMapOf inp) g).2.1) g)
          (some (groupTags g)))))) := by
  refine ⟨?_, ?_, ?_⟩
  · intro s g _
    exact aggregateRatings_sums mode (profilesMapOf inp) g
  · intro s g hsg h0 hmem
    rcases List.mem_map.mp hmem with ⟨rec, hrec, hrid⟩
    obtain ⟨s', g', hsg', hscore'⟩ := mem_out hrec
    obtain ⟨-, h0', hsid', -⟩ := scoreShow_some_inv hscore'
    have hss : s' = s := by rw [← hsid', hrid]
    subst hss
    have hnd := groupFold_keys_nodup (fun r => r.show_id) (mkContribution inp uid)
      (contributingOf inp uid excl)
    rw [showRatingsOf] at hsg hsg'
    have hgg : g' = g := keys_nodup_unique hnd hsg' hsg
    rw [hgg] at h0'
    exact h0' h0
  · intro s g _ h2 h0 hL
    exact scoreShow_map_score h2 h0 hL

/-- Witness for C3: the accumulated total weight over `sampleGroup`
equals the sum of the claimed per-rating weights. -/
theorem claim_C3_witness :
    (aggregateRatings .tonight (profilesMapOf sampleInput) sampleGroup).2.1 =
      (sampleGroup.map (fun c =>
        (c.similarity * (7/10) + (if c.isFollowed then 3/10 else 0)) *
          getRecencyMultiplier c.created_days .tonight)).sum :=
  ((claim_C3_aggregator sampleInput "me" .tonight []).1 "sx" sampleGroup
    (by rw [ev_showRatings]; exact List.mem_singleton.mpr rfl)).2

theorem truthyAndGe7_some_eq (v : ℚ) : truthyAndGe7 (some v) = decide (7 ≤ v) := by
  by_cases h : 7 ≤ v
  · have hne : v ≠ 0 := ne_of_gt (lt_of_lt_of_le (by norm_num) h)
    simp [truthyAndGe7, h, hne]
  · simp [truthyAndGe7, h]

theorem applyDeckModeMultiplier_tonight (score : ℚ) (rating : Rating)
    (tags : Option (List String)) :
    applyDeckModeMultiplier score .tonight rating tags =
      score * (1 + (if truthyAndGe7 rating.hook then 1/10 else 0)
        + (if 7 ≤ rating.enjoyment then 1/10 else 0)
        + (if (tags.getD []).contains "easy watch" then 15/100 else 0)) := by
  simp only [applyDeckModeMultiplier]
  split_ifs <;> ring

theorem applyDeckModeMultiplier_weekend (score : ℚ) (rating : Rating)
    (tags : Option (List String)) :
    applyDeckModeMultiplier score .this_weekend rating tags =
      score * (1 + (if truthyAndGe7 rating.payoff then 1/10 else 0)
        + (if truthyAndGe7 rating.consistency then 1/10 else 0)) := by
  simp only [applyDeckModeMultiplier]
  split_ifs <;> ring

theorem avgRatingOfGroup_hook (s : String) (b : ℚ) (g : List Contribution) :
    (avgRatingOfGroup s b g).hook = some (avgField g (fun r => r.hook)) := rfl

theorem avgRatingOfGroup_payoff (s : String) (b : ℚ) (g : List Contribution) :
    (avgRatingOfGroup s b g).payoff = some (avgField g (fun r => r.payoff)) := rfl

theorem avgRatingOfGroup_consistency (s : String) (b : ℚ) (g : List Contribution) :
    (avgRatingOfGroup s b g).consistency =
      some (avgField g (fun r => r.consistency)) := rfl

theorem avgRatingOfGroup_enjoyment (s : String) (b : ℚ) (g : List Contribution) :
    (avgRatingOfGroup s b g).enjoyment = b := rfl

/-- C6 (amended): for every scored show, the mode-specific content
multiplier starts at 1.0 and, in immediate ('tonight') mode, adds 0.1
if the average hook sub-score across contributors (absent sub-scores
counted as 0) is at least 7, adds 0.1 if the *base score* — the
weighted average enjoyment, not the plain average — is at least 7, and
adds 0.15 if the show's assembled tag list includes the tag
'easy watch' (in planned mode: +0.1 for average payoff ≥ 7 and +0.1
for average consistency ≥ 7); the final score equals
`baseScore * multiplier` clamped to `[0, 10]`. -/
theorem claim_C6_amended (inp : FeedInput) (uid : String) (mode : DeckMode)
    (excl : List String) (s : String) (g : List Contribution)
    (_hsg : (s, g) ∈ showRatingsOf inp uid excl)
    (h2 : ¬ g.length < 2)
    (h0 : (aggregateRatings mode (profilesMapOf inp) g).2.1 ≠ 0)
    (hL : (mapLookup (showsMapOf inp) s).isSome = true) :
    (scoreShow mode (profilesMapOf inp) (showsMapOf inp) s g).map (fun r => r.score) =
      some (max 0 (min 10
        (((aggregateRatings mode (profilesMapOf inp) g).1 /
            (aggregateRatings mode (profilesMapOf inp) g).2.1) *
          (match mode with
           | .tonight =>
              1 + (if 7 ≤ avgField g (fun r => r.hook) then 1/10 else 0)
                + (if 7 ≤ (aggregateRatings mode (profilesMapOf inp) g).1 /
                      (aggregateRatings mode (profilesMapOf inp) g).2.1
                    then 1/10 else 0)
                + (if (groupTags g).contains "easy watch" then 15/100 else 0)
           | .this_weekend =>
              1 + (if 7 ≤ avgField g (fun r => r.payoff) then 1/10 else 0)
                + (if 7 ≤ avgField g (fun r => r.consistency) then 1/10 else 0))))) := by
  rw [scoreShow_map_score h2 h0 hL]
  cases mode with
  | tonight =>
    have hmul : applyDeckModeMultiplier
        ((aggregateRatings .tonight (profilesMapOf inp) g).1 /
          (aggregateRatings .tonight (profilesMapOf inp) g).2.1) .tonight
        (avgRatingOfGroup s
          ((aggregateRatings .tonight (profilesMapOf inp) g).1 /
            (aggregateRatings .tonight (profilesMapOf inp) g).2.1) g)
        (some (groupTags g)) =
        ((aggregateRatings .tonight (profilesMapOf inp) g).1 /
            (aggregateRatings .tonight (profilesMapOf inp) g).2.1) *
          (1 + (if 7 ≤ avgField g (fun r => r.hook) then 1/10 else 0)
            + (if 7 ≤ (aggregateRatings .tonight (profilesMapOf inp) g).1 /
                  (aggregateRatings .tonight (profilesMapOf inp) g).2.1
                then 1/10 else 0)
            + (if (groupTags g).contains "easy watch" then 15/100 else 0)) := by
      rw [applyDeckModeMultiplier_tonight]
      simp only [avgRatingOfGroup_hook, avgRatingOfGroup_enjoyment,
        truthyAndGe7_some_eq, decide_eq_true_eq, Option.getD_some]
    rw [hmul]
  | this_weekend =>
    have hmul : applyDeckModeMultiplier
        ((aggregateRatings .this_weekend (profilesMapOf inp) g).1 /
          (aggregateRatings .this_weekend (profilesMapOf inp) g).2.1) .this_weekend
        (avgRatingOfGroup s
          ((aggregateRatings .this_weekend (profilesMapOf inp) g).1 /
            (aggregateRatings .this_weekend (profilesMapOf inp) g).2.1) g)
        (some (groupTags g)) =
        ((aggregateRatings .this_weekend (profilesMapOf inp) g).1 /
            (aggregateRatings .this_weekend (profilesMapOf inp) g).2.1) *
          (1 + (if 7 ≤ avgField g (fun r => r.payoff) then 1/10 else 0)
            + (if 7 ≤ avgField g (fun r => r.consistency) then 1/10 else 0)) := by
      rw [applyDeckModeMultiplier_weekend]
      simp only [avgRatingOfGroup_payoff, avgRatingOfGroup_consistency,
        truthyAndGe7_some_eq, decide_eq_true_eq]
    rw [hmul]

/-- Witness for C6's amended theorem at `sampleInput` and show `sx`. -/
theorem claim_C6_witness :
    (scoreShow .tonight (profilesMapOf sampleInput) (showsMapOf sampleInput)
        "sx" sampleGroup).map (fun r => r.score) =
      some (max 0 (min 10
        (((aggregateRatings .tonight (profilesMapOf sampleInput) sampleGroup).1 /
            (aggregateRatings .tonight (profilesMapOf sampleInput) sampleGroup).2.1) *
          (1 + (if 7 ≤ avgField sampleGroup (fun r => r.hook) then 1/10 else 0)
            + (if 7 ≤ (aggregateRatings .tonight (profilesMapOf sampleInput) sampleGroup).1 /
                  (aggregateRatings .tonight (profilesMapOf sampleInput) sampleGroup).2.1
                then 1/10 else 0)
            + (if (groupTags sampleGroup).contains "easy watch" then 15/100
                else 0))))) :=
  claim_C6_amended sampleInput "me" .tonight [] "sx" sampleGroup
    (by rw [ev_showRatings]; exact List.mem_singleton.mpr rfl)
    (by simp [sampleGroup])
    (by norm_num [aggregateRatings, aggStep, ev_profiles, mapLookup,
      getRecencyMultiplier, sampleGroup])
    (by simp [ev_shows, mapLookup])

/-- Counterexample to C6 as stated: at `sampleInput` the plain average
enjoyment of the two contributors of `sx` is 7.5 ≥ 7, so the claimed
multiplier is 1.1 and the claimed final score is 341/48 ≈ 7.10; the
code instead tests the weighted base score 155/24 ≈ 6.46 < 7, applies
multiplier 1.0, and outputs 155/24 ≠ 341/48. -/
theorem claim_C6_counterexample :
    (getPersonalizedRecommendations sampleInput "me" .tonight []).map
        (fun r => (r.show_id, r.score)) = [("sx", 155/24)] ∧
    showRatingsOf sampleInput "me" [] = [("sx", sampleGroup)] ∧
    max 0 (min 10
      (((aggregateRatings .tonight (profilesMapOf sampleInput) sampleGroup).1 /
          (aggregateRatings .tonight (profilesMapOf sampleInput) sampleGroup).2.1) *
        deckMultiplierClaim .tonight sampleGroup (groupTags sampleGroup))) = 341/48 ∧
    ((155 : ℚ)/24) ≠ 341/48 := by
  refine ⟨ev_out, ev_showRatings, ?_, by norm_num⟩
  norm_num [aggregateRatings, aggStep, ev_profiles, mapLookup, getRecencyMultiplier,
    sampleGroup, deckMultiplierClaim, avgField, groupTags]

theorem find?_append_some {α : Type} {f : α → Bool} {l₁ l₂ : List α} {x : α}
    (h : l₁.find? f = some x) : (l₁ ++ l₂).find? f = some x := by
  induction l₁ with
  | nil => simp at h
  | cons y t ih =>
    cases hf : f y
    · rw [List.find?_cons_of_neg _ (by simp [hf])] at h
      rw [List.cons_append, List.find?_cons_of_neg _ (by simp [hf])]
      exact ih h
    · rw [List.find?_cons_of_pos _ hf] at h
      rw [List.cons_append, List.find?_cons_of_pos _ hf]
      exact h

theorem find?_append_none {α : Type} {f : α → Bool} {l₁ l₂ : List α}
    (h : l₁.find? f = none) : (l₁ ++ l₂).find? f = l₂.find? f := by
  induction l₁ with
  | nil => simp
  | cons y t ih =>
    cases hf : f y
    · rw [List.find?_cons_of_neg _ (by simp [hf])] at h
      rw [List.cons_append, List.find?_cons_of_neg _ (by simp [hf])]
      exact ih h
    · rw [List.find?_cons_of_pos _ hf] at h
      cases h

theorem find?_take_some {α : Type} {f : α → Bool} {n : ℕ} {l : List α} {x : α}
    (h : (l.take n).find? f = some x) : l.find? f = some x := by
  induction l generalizing n with
  | nil => simp at h
  | cons y t ih =>
    cases n with
    | zero => simp at h
    | succ m =>
      rw [List.take_succ_cons] at h
      cases hf : f y
      · rw [List.find?_cons_of_neg _ (by simp [hf])] at h
        rw [List.find?_cons_of_neg _ (by simp [hf])]
        exact ih h
      · rw [List.find?_cons_of_pos _ hf] at h
        rw [List.find?_cons_of_pos _ hf]
        exact h

theorem addUniquePicks_cons_pos {acc : List HomePick} {x : HomePick} {t : List HomePick}
    (hc : acc.any (fun p => p.show_id = x.show_id) = true) :
    addUniquePicks acc (x :: t) = addUniquePicks acc t := by
  simp only [addUniquePicks, List.foldl_cons, hc, if_true]

theorem addUniquePicks_cons_neg {acc : List HomePick} {x : HomePick} {t : List HomePick}
    (hc : ¬ acc.any (fun p => p.show_id = x.show_id) = true) :
    addUniquePicks acc (x :: t) = addUniquePicks (acc ++ [x]) t := by
  have hcf : acc.any (fun p => p.show_id = x.show_id) = false := by
    rw [← Bool.not_eq_true]
    exact hc
  simp only [addUniquePicks, List.foldl_cons, hcf, Bool.false_eq_true, if_false]

theorem addUniquePicks_keys_mem (l : List HomePick) :
    ∀ (acc : List HomePick) (s : String),
      s ∈ (addUniquePicks acc l).map (fun p => p.show_id) ↔
        s ∈ acc.map (fun p => p.show_id) ∨ s ∈ l.map (fun p => p.show_id) := by
  induction l with
  | nil => intro acc s; simp [addUniquePicks]
  | cons x t ih =>
    intro acc s
    by_cases hc : acc.any (fun p => p.show_id = x.show_id)
    · have hmem : x.show_id ∈ acc.map (fun p => p.show_id) := by
        rcases List.any_eq_true.mp hc with ⟨q, hq, hqe⟩
        exact List.mem_map.mpr ⟨q, hq, by simpa using hqe⟩
      rw [addUniquePicks_cons_pos hc]
      rw [ih acc s]
      simp only [List.map_cons, List.mem_cons]
      constructor
      · rintro (h | h)
        · exact Or.inl h
        · exact Or.inr (Or.inr h)
      · rintro (h | h | h)
        · exact Or.inl h
        · exact Or.inl (by rw [h]; exact hmem)
        · exact Or.inr h
    · rw [addUniquePicks_cons_neg hc]
      rw [ih (acc ++ [x]) s]
      simp only [List.map_append, List.map_cons, List.map_nil, List.mem_append,
        List.mem_cons, List.mem_singleton]
      tauto

theorem addUniquePicks_keys_nodup (l : List HomePick) :
    ∀ (acc : List HomePick),
      (acc.map (fun p => p.show_id)).Nodup →
      ((addUniquePicks acc l).map (fun p => p.show_id)).Nodup := by
  induction l with
  | nil => intro acc h; simpa [addUniquePicks] using h
  | cons x t ih =>
    intro acc h
    by_cases hc : acc.any (fun p => p.show_id = x.show_id)
    · rw [addUniquePicks_cons_pos hc]
      exact ih acc h
    · rw [addUniquePicks_cons_neg hc]
      apply ih
      have hnomem : x.show_id ∉ acc.map (fun p => p.show_id) := by
        intro hmem
        rcases List.mem_map.mp hmem with ⟨q, hq, hqe⟩
        exact hc (List.any_eq_true.mpr ⟨q, hq, by simp [hqe]⟩)
      simp only [List.map_append, List.map_cons, List.map_nil]
      rw [List.nodup_append]
      refine ⟨h, List.nodup_singleton _, ?_⟩
      intro a ha hb
      rcases List.mem_singleton.mp hb with rfl
      exact hnomem ha

theorem mem_addUniquePicks (l : List HomePick) :
    ∀ (acc : List HomePick) (p : HomePick), p ∈ addUniquePicks acc l →
      p ∈ acc ∨
        (l.find? (fun q => q.show_id = p.show_id) = some p ∧
          p.show_id ∉ acc.map (fun q => q.show_id)) := by
  induction l with
  | nil => intro acc p hp; exact Or.inl (by simpa [addUniquePicks] using hp)
  | cons x t ih =>
    intro acc p hp
    by_cases hc : acc.any (fun q => q.show_id = x.show_id)
    · rw [addUniquePicks_cons_pos hc] at hp
      rcases ih acc p hp with h | ⟨hfind, hnk⟩
      · exact Or.inl h
      · have hxid : x.show_id ∈ acc.map (fun q => q.show_id) := by
          rcases List.any_eq_true.mp hc with ⟨q, hq, hqe⟩
          exact List.mem_map.mpr ⟨q, hq, by simpa using hqe⟩
        have hne : ¬ (x.show_id = p.show_id) := by
          intro he
          exact hnk (he ▸ hxid)
        refine Or.inr ⟨?_, hnk⟩
        rw [List.find?_cons_of_neg _ (by simp [hne])]
        exact hfind
    · rw [addUniquePicks_cons_neg hc] at hp
      have hxnew : x.show_id ∉ acc.map (fun q => q.show_id) := by
        intro hmem
        rcases List.mem_map.mp hmem with ⟨q, hq, hqe⟩
        exact hc (List.any_eq_true.mpr ⟨q, hq, by simp [hqe]⟩)
      rcases ih (acc ++ [x]) p hp with h | ⟨hfind, hnk⟩
      · rcases List.mem_append.mp h with h | h
        · exact Or.inl h
        · rcases List.mem_singleton.mp h with rfl
          refine Or.inr ⟨?_, hxnew⟩
          rw [List.find?_cons_of_pos _ (by simp)]
      · have hnk' : p.show_id ∉ acc.map (fun q => q.show_id) := by
          intro hmem
          exact hnk (by simp [hmem])
        have hne : ¬ (x.show_id = p.show_id) := by
          intro he
          apply hnk
          simp [← he]
        refine Or.inr ⟨?_, hnk'⟩
        rw [List.find?_cons_of_neg _ (by simp [hne])]
        exact hfind

/-- C8: the fallback-composed main deck returned by `getHomePicks`
never contains more than the target count of 10 picks and never
contains two picks with the same show identifier, even when the tiers
produce overlapping shows; when a show appears in more than one tier,
the first occurrence (earlier tier) wins. -/
theorem claim_C8_fallback_dedup (A B T : List HomePick) :
    (getHomePicks A B T).length ≤ 10 ∧
    ((getHomePicks A B T).map (fun p => p.show_id)).Nodup ∧
    (∀ p ∈ getHomePicks A B T,
      (A ++ B ++ T).find? (fun q => q.show_id = p.show_id) = some p) := by
  have hcomb_nodup : ((addUniquePicks [] (A ++ B)).map (fun p => p.show_id)).Nodup :=
    addUniquePicks_keys_nodup (A ++ B) [] (by simp)
  have hall_nodup :
      (((if (addUniquePicks [] (A ++ B)).length < 3 then
          addUniquePicks (addUniquePicks [] (A ++ B)) (T.take 10)
        else addUniquePicks [] (A ++ B)).map (fun p => p.show_id))).Nodup := by
    by_cases hlt : (addUniquePicks [] (A ++ B)).length < 3
    · rw [if_pos hlt]
      exact addUniquePicks_keys_nodup (T.take 10) _ hcomb_nodup
    · rw [if_neg hlt]
      exact hcomb_nodup
  have hcomb_first : ∀ p ∈ addUniquePicks [] (A ++ B),
      (A ++ B ++ T).find? (fun q => q.show_id = p.show_id) = some p := by
    intro p hp
    rcases mem_addUniquePicks (A ++ B) [] p hp with h | ⟨hfind, -⟩
    · cases h
    · exact find?_append_some hfind
  refine ⟨?_, ?_, ?_⟩
  · simp only [getHomePicks]
    exact List.length_take_le 10 _
  · simp only [getHomePicks]
    exact hall_nodup.sublist ((List.take_sublist _ _).map _)
  · intro p hp
    simp only [getHomePicks] at hp
    have hp' := List.mem_of_mem_take hp
    by_cases hlt : (addUniquePicks [] (A ++ B)).length < 3
    · rw [if_pos hlt] at hp'
      rcases mem_addUniquePicks (T.take 10) _ p hp' with h | ⟨hfind, hnk⟩
      · exact hcomb_first p h
      · have hnAB : p.show_id ∉ (A ++ B).map (fun q => q.show_id) := by
          intro hmem
          exact hnk ((addUniquePicks_keys_mem (A ++ B) [] p.show_id).mpr
            (Or.inr hmem))
        have hnone : (A ++ B).find? (fun q => q.show_id = p.show_id) = none := by
          rw [List.find?_eq_none]
          intro q hq
          simp only [decide_eq_true_eq]
          intro he
          exact hnAB (List.mem_map.mpr ⟨q, hq, he⟩)
        rw [find?_append_none hnone]
        exact find?_take_some hfind
    · rw [if_neg hlt] at hp'
      exact hcomb_first p hp'

/-- Witness for C8: with a duplicate identifier across tiers A and B,
the tier-A pick wins and trending backfills. -/
theorem claim_C8_witness :
    pickA ∈ getHomePicks [pickA] [pickB, pickDup] [pickT] ∧
    ([pickA] ++ [pickB, pickDup] ++ [pickT]).find?
        (fun q => q.show_id = pickA.show_id) = some pickA := by
  have hmem : pickA ∈ getHomePicks [pickA] [pickB, pickDup] [pickT] := by
    simp [getHomePicks, addUniquePicks, pickA, pickB, pickDup, pickT]
  exact ⟨hmem,
    (claim_C8_fallback_dedup [pickA] [pickB, pickDup] [pickT]).2.2 pickA hmem⟩

/-- C9: the list returned by `getPersonalizedRecommendations` is sorted
by score in descending order: for every pair of adjacent elements, the
earlier element's score is greater than or equal to the later one's. -/
theorem claim_C9_sorted_descending (inp : FeedInput) (uid : String) (mode : DeckMode)
    (excl : List String) :
    (getPersonalizedRecommendations inp uid mode excl).Chain'
      (fun a b => b.score ≤ a.score) := by
  unfold getPersonalizedRecommendations
  by_cases h3 : (userRatingsOf inp uid).length < 3
  · simp [h3]
  · rw [if_neg h3]
    exact (sortDescBy_pairwise _ _).chain'

end HYW
